import Mathlib

/-!
Verification of the horizon `pr-review` tool (src/pr-review/pr-review.cpp,
canvas_cairo2.cpp/hpp): a shallow embedding of the change-resolution and
dependency-closure SQL views and of the recording-canvas pipeline, with
theorems settling the specification claims.
-/

namespace PrReview

/-- Record types as used by the SQL string tags ('part', 'entity', 'unit',
'symbol', 'package', 'padstack', 'model_3d'); `other` stands for any further
tag. -/
inductive RecordType
  | part
  | entity
  | unit
  | symbol
  | package
  | padstack
  | model3d
  | other
deriving DecidableEq, Repr

/-- The nil UUID used by pr-review.cpp as the "no base" marker. -/
def nilUUID : String := "00000000-0000-0000-0000-000000000000"

/-- A row of the `git_files` temp table: `(git_filename, status)` as inserted
by `diff_file_cb_c`. -/
structure GitFile where
  path : String
  status : Int
deriving DecidableEq, Repr

/-- A row of `all_items_view` (the pool's path→record lookup relation):
`(type, uuid, name, filename)`. -/
structure ItemRow where
  type : RecordType
  uuid : String
  name : String
  filename : String
deriving DecidableEq, Repr

/-- A row of the `models` table: `(package_uuid, model_filename)` (the columns
pr-review.cpp reads). -/
structure ModelRow where
  package_uuid : String
  model_filename : String
deriving DecidableEq, Repr

/-- A row of the `parts` table (the columns pr-review.cpp reads: `uuid`,
`base`). -/
structure PartRow where
  uuid : String
  base : String
deriving DecidableEq, Repr

/-- A row of the `symbols` table (the columns pr-review.cpp reads: `uuid`,
`name`, `unit`). -/
structure SymbolRow where
  uuid : String
  name : String
  unit : String
deriving DecidableEq, Repr

/-- A row of the `dependencies` table: `(type, uuid, dep_type, dep_uuid)`. -/
structure DepRow where
  type : RecordType
  uuid : String
  dep_type : RecordType
  dep_uuid : String
deriving DecidableEq, Repr

/-- A row of the `git_files_view` temp view:
`(type, uuid, name, filename, status)`. -/
structure GitRow where
  type : RecordType
  uuid : String
  name : String
  filename : String
  status : Int
deriving DecidableEq, Repr

/-- The synthesized model items of `git_files_view`'s inner UNION:
`SELECT DISTINCT 'model_3d' AS type, nil as uuid, '' as name, model_filename
as filename FROM models`. -/
def modelItems (models : List ModelRow) : List ItemRow :=
  (models.map (fun m => ItemRow.mk RecordType.model3d nilUUID "" m.model_filename)).dedup

/-- The `git_files_view` temp view: `git_files` INNER JOIN (`all_items_view` UNION ALL the
synthesized model items) ON `filename = git_filename`. -/
def gitFilesView (git : List GitFile) (allItems : List ItemRow) (models : List ModelRow) :
    List GitRow :=
  git.flatMap (fun g =>
    ((allItems ++ modelItems models).filter (fun i => i.filename = g.path)).map
      (fun i => GitRow.mk i.type i.uuid i.name g.path g.status))

/-- The "Non-items" query: `git_files` LEFT JOIN `all_items_view` ON
`filename = git_filename` WHERE `filename IS NULL` — paths of changed files
with no matching row in `all_items_view`. -/
def nonItems (git : List GitFile) (allItems : List ItemRow) : List String :=
  (git.filter (fun g => allItems.all (fun i => i.filename ≠ g.path))).map (fun g => g.path)

/-- The `top_parts` view: changed part rows LEFT JOIN `parts` on uuid, LEFT
JOIN `git_files_view` (as gfv) on `gfv.uuid = parts.base`, keeping rows where
the base has no changed row (`gfv.uuid IS NULL`) or the base is the nil UUID.
Both LEFT JOINs are modelled literally (one output row per matching pair, one
row with NULLs when nothing matches). -/
def topPartsRow (gfv : List GitRow) (parts : List PartRow) (g : GitRow) : List String :=
  match parts.filter (fun p => p.uuid = g.uuid) with
  | [] => [g.uuid]
  | p0 :: prest =>
    (p0 :: prest).flatMap (fun p =>
      match gfv.filter (fun g2 => g2.uuid = p.base) with
      | [] => [g.uuid]
      | b0 :: brest =>
        if p.base = nilUUID then (b0 :: brest).map (fun _ => g.uuid) else [])

def topParts (gfv : List GitRow) (parts : List PartRow) : List String :=
  (gfv.filter (fun g => g.type = RecordType.part)).flatMap (topPartsRow gfv parts)

/-- The root-selection predicate as the spec states it: a changed part is a
root iff it has no derivation base in the changed set or its base is nil.  A
changed part file with no row in the `parts` table has no base. -/
def IsRootPart (gfv : List GitRow) (parts : List PartRow) (u : String) : Prop :=
  ∀ p ∈ parts, p.uuid = u →
    p.base = nilUUID ∨ ∀ g2 ∈ gfv, g2.uuid ≠ p.base

lemma parts_uuid_inj {parts : List PartRow} (hnd : (parts.map PartRow.uuid).Nodup)
    {p q : PartRow} (hp : p ∈ parts) (hq : q ∈ parts) (h : p.uuid = q.uuid) : p = q :=
  (List.nodup_map_iff_inj_on hnd.of_map).mp hnd p hp q hq h

lemma mem_topPartsRow {gfv : List GitRow} {parts : List PartRow}
    (hnd : (parts.map PartRow.uuid).Nodup) (g : GitRow) (u : String) :
    u ∈ topPartsRow gfv parts g ↔ u = g.uuid ∧ IsRootPart gfv parts g.uuid := by
  unfold topPartsRow
  cases hfil : parts.filter (fun p => p.uuid = g.uuid) with
  | nil =>
    have hno : ∀ p ∈ parts, p.uuid ≠ g.uuid := by
      intro p hp
      have := List.filter_eq_nil_iff.mp hfil p hp
      simpa using this
    simp only [List.mem_singleton]
    constructor
    · intro h
      exact ⟨h, fun p hp hpu => absurd hpu (hno p hp)⟩
    · exact fun h => h.1
  | cons p0 prest =>
    rw [List.mem_flatMap]
    have hmemfil : ∀ p ∈ p0 :: prest, p ∈ parts ∧ p.uuid = g.uuid := by
      intro p hp
      rw [← hfil] at hp
      have := List.mem_filter.mp hp
      exact ⟨this.1, by simpa using this.2⟩
    constructor
    · rintro ⟨p, hp, hu⟩
      obtain ⟨hpparts, hpuuid⟩ := hmemfil p hp
      have hroot : p.base = nilUUID ∨ ∀ g2 ∈ gfv, g2.uuid ≠ p.base := by
        cases hbf : gfv.filter (fun g2 => g2.uuid = p.base) with
        | nil =>
          right
          intro g2 hg2
          have := List.filter_eq_nil_iff.mp hbf g2 hg2
          simpa using this
        | cons b0 brest =>
          rw [hbf] at hu
          have hu' : u ∈ (if p.base = nilUUID
              then (b0 :: brest).map (fun _ => g.uuid) else []) := hu
          by_cases hnil : p.base = nilUUID
          · exact Or.inl hnil
          · rw [if_neg hnil] at hu'
            exact absurd hu' (List.not_mem_nil u)
      have hug : u = g.uuid := by
        cases hbf : gfv.filter (fun g2 => g2.uuid = p.base) with
        | nil =>
          rw [hbf] at hu
          simpa using hu
        | cons b0 brest =>
          rw [hbf] at hu
          have hu' : u ∈ (if p.base = nilUUID
              then (b0 :: brest).map (fun _ => g.uuid) else []) := hu
          by_cases hnil : p.base = nilUUID
          · rw [if_pos hnil] at hu'
            obtain ⟨_, _, h⟩ := List.mem_map.mp hu'
            exact h.symm
          · rw [if_neg hnil] at hu'
            exact absurd hu' (List.not_mem_nil u)
      refine ⟨hug, fun q hq hqu => ?_⟩
      have : q = p := parts_uuid_inj hnd hq hpparts (hqu.trans hpuuid.symm)
      subst this
      exact hroot
    · rintro ⟨hu, hroot⟩
      obtain ⟨hp0parts, hp0uuid⟩ := hmemfil p0 (List.mem_cons_self p0 prest)
      refine ⟨p0, List.mem_cons_self p0 prest, ?_⟩
      cases hbf : gfv.filter (fun g2 => g2.uuid = p0.base) with
      | nil => simpa using hu
      | cons b0 brest =>
        have hb0 : b0 ∈ gfv.filter (fun g2 => g2.uuid = p0.base) := by
          rw [hbf]; exact List.mem_cons_self b0 brest
        have hb0' := List.mem_filter.mp hb0
        have hb0uuid : b0.uuid = p0.base := by simpa using hb0'.2
        have hnil : p0.base = nilUUID := by
          rcases hroot p0 hp0parts hp0uuid with h | h
          · exact h
          · exact absurd hb0uuid (h b0 hb0'.1)
        show u ∈ (if p0.base = nilUUID then (b0 :: brest).map (fun _ => g.uuid) else [])
        rw [if_pos hnil]
        rw [List.mem_map]
        exact ⟨b0, List.mem_cons_self b0 brest, hu.symm⟩

/-- C2: a part `p` in the changed set is selected as a root (a row of the
`top_parts` view) iff `p` has no derivation base in the changed set or its
base is the nil UUID; stated for part tables whose uuids are unique (the
primary-key constraint). -/
theorem c2_root_selection (gfv : List GitRow) (parts : List PartRow)
    (hnd : (parts.map PartRow.uuid).Nodup) (u : String) :
    u ∈ topParts gfv parts ↔
      (∃ g ∈ gfv, g.type = RecordType.part ∧ g.uuid = u) ∧ IsRootPart gfv parts u := by
  unfold topParts
  rw [List.mem_flatMap]
  constructor
  · rintro ⟨g, hg, hu⟩
    have hg' := List.mem_filter.mp hg
    have hgt : g.type = RecordType.part := by simpa using hg'.2
    obtain ⟨hug, hroot⟩ := (mem_topPartsRow hnd g u).mp hu
    subst hug
    exact ⟨⟨g, hg'.1, hgt, rfl⟩, hroot⟩
  · rintro ⟨⟨g, hgm, hgt, hgu⟩, hroot⟩
    refine ⟨g, List.mem_filter.mpr ⟨hgm, by simpa using hgt⟩, ?_⟩
    rw [mem_topPartsRow hnd]
    rw [hgu]
    exact ⟨rfl, hroot⟩

/-- Witness for `c2_root_selection` at a concrete change set: one changed
part file whose part row has the nil base is a root. -/
theorem c2_root_selection_witness :
    "aa" ∈ topParts [GitRow.mk RecordType.part "aa" "A" "parts/a.json" 1]
        [PartRow.mk "aa" nilUUID] := by
  refine (c2_root_selection _ _ (by decide) "aa").mpr ?_
  refine ⟨⟨GitRow.mk RecordType.part "aa" "A" "parts/a.json" 1, by decide, by decide, rfl⟩, ?_⟩
  intro p hp hpu
  left
  have : p = PartRow.mk "aa" nilUUID := by simpa using hp
  rw [this]

/-- A row of the recursive CTE `where_used(typex, uuidx, level, root)` in the
`parts_tree` view. -/
structure WRow where
  typex : RecordType
  uuidx : String
  level : Nat
  root : String
deriving DecidableEq, Repr

/-- One round of the recursive CTE's step: join `dependencies` with the rows
derived so far (`SELECT dep_type, dep_uuid, level+1, root FROM dependencies,
where_used WHERE dependencies.type = where_used.typex AND dependencies.uuid =
where_used.uuidx`). -/
def closureStep (deps : List DepRow) (rows : List WRow) : List WRow :=
  rows.flatMap (fun r =>
    (deps.filter (fun d => d.type = r.typex ∧ d.uuid = r.uuidx)).map
      (fun d => WRow.mk d.dep_type d.dep_uuid (r.level + 1) r.root))

/-- Append the rows of `new` that are not already present (the row-level
deduplication performed by the CTE's UNION). -/
def addNew (acc : List WRow) (new : List WRow) : List WRow :=
  new.foldl (fun a r => if r ∈ a then a else a ++ [r]) acc

/-- Iterate the CTE step to a fixpoint, fuel-bounded (the SQL engine iterates
until no new row appears; with acyclic data a fuel of the possible row count
reaches the fixpoint). -/
def whereUsedIter (deps : List DepRow) : Nat → List WRow → List WRow
  | 0, rows => rows
  | n + 1, rows => whereUsedIter deps n (addNew rows (closureStep deps rows))

/-- The full `where_used` row set of `parts_tree`: seeds
`SELECT 'part', part_uuid, 0, part_uuid FROM top_parts`, then the recursive
step under UNION row deduplication. -/
def whereUsed (deps : List DepRow) (tops : List String) (fuel : Nat) : List WRow :=
  whereUsedIter deps fuel
    (addNew [] (tops.map (fun u => WRow.mk RecordType.part u 0 u)))

/-- The CASE expression of `parts_tree` assigning `type_order`
(`'part'→0, 'entity'→1, 'unit'→2, 'package'→4, 'padstack'→6, ELSE -1`). -/
def typeOrderOf : RecordType → Int
  | RecordType.part => 0
  | RecordType.entity => 1
  | RecordType.unit => 2
  | RecordType.package => 4
  | RecordType.padstack => 6
  | _ => -1

/-- The correlated subquery `(SELECT COUNT(*) FROM git_files_view WHERE
git_files_view.uuid = uuidx AND git_files_view.type = typex)` giving the
`in_pr` column. -/
def inPr (gfv : List GitRow) (t : RecordType) (u : String) : Nat :=
  (gfv.filter (fun g => g.uuid = u ∧ g.type = t)).length

/-- A display row of the `parts_tree` / `all_parts_tree` views:
`(type, name, level, type_order, in_pr, uuid, root)`.  `name` is an `Option`
because the LEFT JOIN against `all_items_view` yields NULL for an unknown
record. -/
structure TRow where
  type : RecordType
  name : Option String
  level : Nat
  type_order : Int
  in_pr : Nat
  uuid : String
  root : String
deriving DecidableEq, Repr

/-- The `parts_tree` view: the `where_used` rows, LEFT JOINed with
`all_items_view` on `(type, uuid)` for the name column, with the
`type_order` CASE and the `in_pr` correlated count. -/
def partsTree (gfv : List GitRow) (parts : List PartRow) (allItems : List ItemRow)
    (deps : List DepRow) (fuel : Nat) : List TRow :=
  (whereUsed deps (topParts gfv parts) fuel).flatMap (fun r =>
    match allItems.filter (fun i => i.type = r.typex ∧ i.uuid = r.uuidx) with
    | [] => [TRow.mk r.typex none r.level (typeOrderOf r.typex)
        (inPr gfv r.typex r.uuidx) r.uuidx r.root]
    | i0 :: irest =>
      (i0 :: irest).map (fun i => TRow.mk r.typex (some i.name) r.level
        (typeOrderOf r.typex) (inPr gfv r.typex r.uuidx) r.uuidx r.root))

/-- The synthesized model rows of `all_parts_tree`: `SELECT 'model_3d',
model_filename, level+1, 5, in_pr, '', root FROM parts_tree INNER JOIN models
ON (models.package_uuid = uuid AND type = 'package')`. -/
def modelTreeRows (pt : List TRow) (models : List ModelRow) : List TRow :=
  pt.flatMap (fun r =>
    if r.type = RecordType.package then
      (models.filter (fun m => m.package_uuid = r.uuid)).map
        (fun m => TRow.mk RecordType.model3d (some m.model_filename) (r.level + 1) 5
          r.in_pr "" r.root)
    else [])

/-- The synthesized symbol rows of `all_parts_tree`: `SELECT 'symbol',
symbols.name, level+1, 3, in_pr, symbols.uuid, root FROM parts_tree INNER
JOIN symbols ON (symbols.unit = parts_tree.uuid AND type = 'unit')`. -/
def symbolTreeRows (pt : List TRow) (symbols : List SymbolRow) : List TRow :=
  pt.flatMap (fun r =>
    if r.type = RecordType.unit then
      (symbols.filter (fun s => s.unit = r.uuid)).map
        (fun s => TRow.mk RecordType.symbol (some s.name) (r.level + 1) 3
          r.in_pr s.uuid r.root)
    else [])

/-- Lexicographic comparison of character lists.  UTF-8 byte order (the
BINARY collation SQLite applies to TEXT in ORDER BY) coincides with code
point order, so this models the engine's string comparison. -/
def charListLt : List Char → List Char → Prop
  | [], [] => False
  | [], _ :: _ => True
  | _ :: _, [] => False
  | a :: as, b :: bs => a < b ∨ (a = b ∧ charListLt as bs)

instance charListLt.decidable : ∀ a b, Decidable (charListLt a b)
  | [], [] => by unfold charListLt; infer_instance
  | [], _ :: _ => by unfold charListLt; infer_instance
  | _ :: _, [] => by unfold charListLt; infer_instance
  | a :: as, b :: bs =>
    have : Decidable (charListLt as bs) := charListLt.decidable as bs
    by unfold charListLt; infer_instance

lemma charListLt_trans : ∀ {a b c : List Char},
    charListLt a b → charListLt b c → charListLt a c
  | [], [], _, h1, _ => absurd h1 id
  | [], _ :: _, [], _, h2 => absurd h2 id
  | [], _ :: _, _ :: _, _, _ => trivial
  | _ :: _, [], _, h1, _ => absurd h1 id
  | _ :: _, _ :: _, [], _, h2 => absurd h2 id
  | a :: as, b :: bs, c :: cs, h1, h2 => by
    rcases h1 with h1 | ⟨h1, h1'⟩
    · rcases h2 with h2 | ⟨h2, _⟩
      · exact Or.inl (lt_trans h1 h2)
      · exact Or.inl (h2 ▸ h1)
    · rcases h2 with h2 | ⟨h2, h2'⟩
      · exact Or.inl (h1 ▸ h2)
      · exact Or.inr ⟨h1.trans h2, charListLt_trans h1' h2'⟩

lemma charListLt_trichotomy : ∀ a b : List Char,
    charListLt a b ∨ a = b ∨ charListLt b a
  | [], [] => Or.inr (Or.inl rfl)
  | [], _ :: _ => Or.inl trivial
  | _ :: _, [] => Or.inr (Or.inr trivial)
  | a :: as, b :: bs => by
    rcases lt_trichotomy a b with h | h | h
    · exact Or.inl (Or.inl h)
    · rcases charListLt_trichotomy as bs with h2 | h2 | h2
      · exact Or.inl (Or.inr ⟨h, h2⟩)
      · exact Or.inr (Or.inl (by rw [h, h2]))
      · exact Or.inr (Or.inr (Or.inr ⟨h.symm, h2⟩))
    · exact Or.inr (Or.inr (Or.inl h))

/-- SQLite's TEXT ordering on two strings. -/
def strLt (a b : String) : Prop := charListLt a.data b.data

instance : DecidableRel strLt := fun a b => charListLt.decidable a.data b.data

lemma strLt_trans {a b c : String} (h1 : strLt a b) (h2 : strLt b c) : strLt a c :=
  charListLt_trans h1 h2

lemma strLt_trichotomy (a b : String) : strLt a b ∨ a = b ∨ strLt b a := by
  rcases charListLt_trichotomy a.data b.data with h | h | h
  · exact Or.inl h
  · exact Or.inr (Or.inl (String.ext h))
  · exact Or.inr (Or.inr h)

/-- The `ORDER BY root, type_order, level` key of `all_parts_tree` as a
relation on display rows (lexicographic on the three columns). -/
def treeKeyLe (a b : TRow) : Prop :=
  strLt a.root b.root ∨ (a.root = b.root ∧ (a.type_order < b.type_order ∨
    (a.type_order = b.type_order ∧ a.level ≤ b.level)))

instance : DecidableRel treeKeyLe := fun a b => by
  unfold treeKeyLe
  infer_instance

instance : IsTotal TRow treeKeyLe where
  total a b := by
    unfold treeKeyLe
    rcases strLt_trichotomy a.root b.root with h | h | h
    · exact Or.inl (Or.inl h)
    · rcases lt_trichotomy a.type_order b.type_order with h2 | h2 | h2
      · exact Or.inl (Or.inr ⟨h, Or.inl h2⟩)
      · rcases Nat.le_total a.level b.level with h3 | h3
        · exact Or.inl (Or.inr ⟨h, Or.inr ⟨h2, h3⟩⟩)
        · exact Or.inr (Or.inr ⟨h.symm, Or.inr ⟨h2.symm, h3⟩⟩)
      · exact Or.inr (Or.inr ⟨h.symm, Or.inl h2⟩)
    · exact Or.inr (Or.inl h)

instance : IsTrans TRow treeKeyLe where
  trans a b c hab hbc := by
    unfold treeKeyLe at *
    rcases hab with h1 | ⟨h1, h1'⟩
    · rcases hbc with h2 | ⟨h2, _⟩
      · exact Or.inl (strLt_trans h1 h2)
      · exact Or.inl (h2 ▸ h1)
    · rcases hbc with h2 | ⟨h2, h2'⟩
      · exact Or.inl (h1 ▸ h2)
      · refine Or.inr ⟨h1.trans h2, ?_⟩
        rcases h1' with h3 | ⟨h3, h3'⟩
        · rcases h2' with h4 | ⟨h4, _⟩
          · exact Or.inl (h3.trans h4)
          · exact Or.inl (h4 ▸ h3)
        · rcases h2' with h4 | ⟨h4, h4'⟩
          · exact Or.inl (h3 ▸ h4)
          · exact Or.inr ⟨h3.trans h4, h3'.trans h4'⟩

/-- The `all_parts_tree` view: UNION (with row deduplication) of
`parts_tree`, the synthesized model rows and the synthesized symbol rows,
then `ORDER BY root, type_order, level`.  The tie order among rows with
equal keys is unspecified in SQL; it is modelled as the stable sort of the
deduplicated union. -/
def allPartsTree (gfv : List GitRow) (parts : List PartRow) (allItems : List ItemRow)
    (deps : List DepRow) (models : List ModelRow) (symbols : List SymbolRow)
    (fuel : Nat) : List TRow :=
  let pt := partsTree gfv parts allItems deps fuel
  List.insertionSort treeKeyLe
    (pt ++ modelTreeRows pt models ++ symbolTreeRows pt symbols).dedup

lemma mem_addNew_of_mem_acc {x : WRow} :
    ∀ {new acc : List WRow}, x ∈ acc → x ∈ addNew acc new := by
  intro new
  induction new with
  | nil => intro acc h; exact h
  | cons r rest ih =>
    intro acc h
    show x ∈ addNew (if r ∈ acc then acc else acc ++ [r]) rest
    apply ih
    by_cases hr : r ∈ acc
    · rw [if_pos hr]; exact h
    · rw [if_neg hr]; exact List.mem_append_left _ h

lemma mem_addNew_cases {x : WRow} :
    ∀ {new acc : List WRow}, x ∈ addNew acc new → x ∈ acc ∨ x ∈ new := by
  intro new
  induction new with
  | nil => intro acc h; exact Or.inl h
  | cons r rest ih =>
    intro acc h
    have h' : x ∈ addNew (if r ∈ acc then acc else acc ++ [r]) rest := h
    rcases ih h' with hx | hx
    · by_cases hr : r ∈ acc
      · rw [if_pos hr] at hx; exact Or.inl hx
      · rw [if_neg hr] at hx
        rcases List.mem_append.mp hx with hx | hx
        · exact Or.inl hx
        · have hxr : x = r := by simpa using hx
          subst hxr
          exact Or.inr (List.mem_cons_self x rest)
    · exact Or.inr (List.mem_cons_of_mem r hx)

lemma addNew_nodup : ∀ {new acc : List WRow}, acc.Nodup → (addNew acc new).Nodup := by
  intro new
  induction new with
  | nil => intro acc h; exact h
  | cons r rest ih =>
    intro acc h
    show (addNew (if r ∈ acc then acc else acc ++ [r]) rest).Nodup
    apply ih
    by_cases hr : r ∈ acc
    · rw [if_pos hr]; exact h
    · rw [if_neg hr]
      simp [List.nodup_append, h, hr]

lemma subset_whereUsedIter {deps : List DepRow} :
    ∀ (n : Nat) {rows : List WRow} {x : WRow}, x ∈ rows → x ∈ whereUsedIter deps n rows := by
  intro n
  induction n with
  | zero => intro rows x h; exact h
  | succ m ih =>
    intro rows x h
    exact ih (mem_addNew_of_mem_acc h)

lemma whereUsedIter_nodup {deps : List DepRow} :
    ∀ (n : Nat) {rows : List WRow}, rows.Nodup → (whereUsedIter deps n rows).Nodup := by
  intro n
  induction n with
  | zero => intro rows h; exact h
  | succ m ih => intro rows h; exact ih (addNew_nodup h)

/-- A seed row of the recursive CTE: level 0, type 'part', its own root, a
`top_parts` member. -/
def SeedRow (tops : List String) (row : WRow) : Prop :=
  row.level = 0 ∧ row.typex = RecordType.part ∧ row.uuidx = row.root ∧ row.root ∈ tops

/-- A row produced by the CTE's recursive step from another row of the set
via a dependency edge. -/
def StepRow (deps : List DepRow) (rows : List WRow) (row : WRow) : Prop :=
  ∃ prev ∈ rows, ∃ d ∈ deps, d.type = prev.typex ∧ d.uuid = prev.uuidx ∧
    row = WRow.mk d.dep_type d.dep_uuid (prev.level + 1) prev.root

lemma stepRow_mono {deps : List DepRow} {rows rows' : List WRow} {row : WRow}
    (hsub : ∀ x ∈ rows, x ∈ rows') (h : StepRow deps rows row) : StepRow deps rows' row := by
  obtain ⟨prev, hprev, d, hd, h1, h2, h3⟩ := h
  exact ⟨prev, hsub prev hprev, d, hd, h1, h2, h3⟩

lemma mem_closureStep {deps : List DepRow} {rows : List WRow} {x : WRow}
    (h : x ∈ closureStep deps rows) : StepRow deps rows x := by
  unfold closureStep at h
  rw [List.mem_flatMap] at h
  obtain ⟨r, hr, hx⟩ := h
  rw [List.mem_map] at hx
  obtain ⟨d, hd, hxd⟩ := hx
  have hd' := List.mem_filter.mp hd
  have hcond : d.type = r.typex ∧ d.uuid = r.uuidx := by simpa using hd'.2
  exact ⟨r, hr, d, hd'.1, hcond.1, hcond.2, hxd.symm⟩

lemma whereUsedIter_inv {deps : List DepRow} {tops : List String} :
    ∀ (n : Nat) {rows : List WRow},
      (∀ x ∈ rows, SeedRow tops x ∨ StepRow deps rows x) →
      ∀ x ∈ whereUsedIter deps n rows,
        SeedRow tops x ∨ StepRow deps (whereUsedIter deps n rows) x := by
  intro n
  induction n with
  | zero => intro rows h; exact h
  | succ m ih =>
    intro rows h
    apply ih
    intro x hx
    rcases mem_addNew_cases hx with hx' | hx'
    · rcases h x hx' with hs | hs
      · exact Or.inl hs
      · exact Or.inr (stepRow_mono (fun y hy => mem_addNew_of_mem_acc hy) hs)
    · exact Or.inr (stepRow_mono (fun y hy => mem_addNew_of_mem_acc hy)
        (mem_closureStep hx'))

/-- C3 (amended): every row of the `where_used` set is emitted exactly once
as a full `(type, uuid, level, root)` row — the CTE's UNION deduplicates
whole rows, not refs — and every row is either a seed (a root at level 0) or
arises from an already-derived row through a dependency edge with
`level = prev.level + 1`. -/
theorem c3_closure_rows (deps : List DepRow) (tops : List String) (fuel : Nat) :
    (whereUsed deps tops fuel).Nodup ∧
    ∀ row ∈ whereUsed deps tops fuel,
      SeedRow tops row ∨ StepRow deps (whereUsed deps tops fuel) row := by
  constructor
  · exact whereUsedIter_nodup fuel (addNew_nodup List.nodup_nil)
  · apply whereUsedIter_inv
    intro x hx
    rcases mem_addNew_cases hx with hx' | hx'
    · exact absurd hx' (List.not_mem_nil x)
    · rw [List.mem_map] at hx'
      obtain ⟨u, hu, hxu⟩ := hx'
      subst hxu
      exact Or.inl ⟨rfl, rfl, rfl, hu⟩

/-- Witness for `c3_closure_rows`: the concrete closure row of a seed part. -/
theorem c3_closure_rows_witness :
    SeedRow ["r"] (WRow.mk RecordType.part "r" 0 "r") ∨
      StepRow [DepRow.mk RecordType.part "r" RecordType.entity "e"]
        (whereUsed [DepRow.mk RecordType.part "r" RecordType.entity "e"] ["r"] 2)
        (WRow.mk RecordType.part "r" 0 "r") :=
  (c3_closure_rows [DepRow.mk RecordType.part "r" RecordType.entity "e"] ["r"] 2).2
    (WRow.mk RecordType.part "r" 0 "r") (by decide)

/-- The dependency edges of the C3/C4/C5 counterexamples: part `r` uses
entity `e` and package `k`, and the `dependencies` relation also records
that package `k` pulls in entity `e`, so `e` is reachable from `r` at edge
counts 1 and 2. -/
def cDeps : List DepRow :=
  [DepRow.mk RecordType.part "r" RecordType.entity "e",
   DepRow.mk RecordType.part "r" RecordType.package "k",
   DepRow.mk RecordType.package "k" RecordType.entity "e"]

/-- C3 counterexample: with change set `{r}` and the `cDeps` edges, the ref
`(entity, e)` rooted at `r` is emitted twice — once at depth 1 and once at
depth 2 — refuting both "emitted exactly once per root" and "annotated with
the minimum depth". -/
theorem c3_counterexample :
    ¬ (∀ t u root,
        ((whereUsed cDeps ["r"] 5).filter
          (fun row => row.typex = t ∧ row.uuidx = u ∧ row.root = root)).length ≤ 1) := by
  intro h
  have := h RecordType.entity "e" "r"
  revert this
  decide

lemma inPr_ne_zero_iff (gfv : List GitRow) (t : RecordType) (u : String) :
    inPr gfv t u ≠ 0 ↔ ∃ g ∈ gfv, g.type = t ∧ g.uuid = u := by
  unfold inPr
  constructor
  · intro h
    have hne : gfv.filter (fun g => g.uuid = u ∧ g.type = t) ≠ [] := by
      intro he
      rw [he] at h
      exact h rfl
    obtain ⟨g, hg⟩ := List.exists_mem_of_ne_nil _ hne
    have hg' := List.mem_filter.mp hg
    have hc : g.uuid = u ∧ g.type = t := by simpa using hg'.2
    exact ⟨g, hg'.1, hc.2, hc.1⟩
  · rintro ⟨g, hgm, ht, hu⟩
    intro h0
    have hg : g ∈ gfv.filter (fun g => g.uuid = u ∧ g.type = t) :=
      List.mem_filter.mpr ⟨hgm, by simp [ht, hu]⟩
    rw [List.length_eq_zero] at h0
    rw [h0] at hg
    exact List.not_mem_nil g hg

lemma mem_partsTree {gfv : List GitRow} {parts : List PartRow} {allItems : List ItemRow}
    {deps : List DepRow} {fuel : Nat} {row : TRow}
    (h : row ∈ partsTree gfv parts allItems deps fuel) :
    ∃ r ∈ whereUsed deps (topParts gfv parts) fuel,
      row.type = r.typex ∧ row.uuid = r.uuidx ∧ row.level = r.level ∧
      row.type_order = typeOrderOf r.typex ∧ row.in_pr = inPr gfv r.typex r.uuidx ∧
      row.root = r.root := by
  unfold partsTree at h
  rw [List.mem_flatMap] at h
  obtain ⟨r, hr, hrow⟩ := h
  refine ⟨r, hr, ?_⟩
  cases hfil : allItems.filter (fun i => i.type = r.typex ∧ i.uuid = r.uuidx) with
  | nil =>
    rw [hfil] at hrow
    have : row = TRow.mk r.typex none r.level (typeOrderOf r.typex)
        (inPr gfv r.typex r.uuidx) r.uuidx r.root := by simpa using hrow
    rw [this]
    exact ⟨rfl, rfl, rfl, rfl, rfl, rfl⟩
  | cons i0 irest =>
    rw [hfil] at hrow
    rw [List.mem_map] at hrow
    obtain ⟨i, _, hi⟩ := hrow
    rw [← hi]
    exact ⟨rfl, rfl, rfl, rfl, rfl, rfl⟩

/-- C4 (amended): every row of the primary closure view `parts_tree` has
`in_pr ≠ 0` iff its `(type, uuid)` ref appears in `git_files_view` with
matching type.  (The synthesized model/symbol rows of `all_parts_tree`
instead inherit the originating row's flag; see the C5 theorems.) -/
theorem c4_in_change_primary (gfv : List GitRow) (parts : List PartRow)
    (allItems : List ItemRow) (deps : List DepRow) (fuel : Nat) :
    ∀ row ∈ partsTree gfv parts allItems deps fuel,
      (row.in_pr ≠ 0 ↔ ∃ g ∈ gfv, g.type = row.type ∧ g.uuid = row.uuid) := by
  intro row h
  obtain ⟨r, _, ht, hu, _, _, hin, _⟩ := mem_partsTree h
  rw [hin, ht, hu]
  exact inPr_ne_zero_iff gfv r.typex r.uuidx

/-- The change set of the C4 counterexample: the part file and its package
file are changed. -/
def c4Git : List GitFile := [GitFile.mk "r.json" 1, GitFile.mk "k.json" 1]

/-- The lookup rows of the C4 counterexample. -/
def c4Items : List ItemRow :=
  [ItemRow.mk RecordType.part "r" "R1" "r.json",
   ItemRow.mk RecordType.package "k" "K" "k.json"]

/-- The parts table of the concrete counterexamples: a single part with no
base. -/
def cParts : List PartRow := [PartRow.mk "r" nilUUID]

/-- The models table of the concrete counterexamples: package `k` has one 3D
model file. -/
def cModels : List ModelRow := [ModelRow.mk "k" "m.step"]

/-- The resolved change rows of the C4 counterexample. -/
def c4Gfv : List GitRow := gitFilesView c4Git c4Items cModels

/-- C4 counterexample: in `all_parts_tree` the synthesized model row carries
the package's `in_pr` (here 1, since package `k` is changed) although no
`(model_3d, uuid)` ref of that row appears in the change set, refuting the
claim for synthesized rows. -/
theorem c4_counterexample :
    ¬ (∀ row ∈ allPartsTree c4Gfv cParts c4Items cDeps cModels [] 5,
        (row.in_pr ≠ 0 ↔ ∃ g ∈ c4Gfv, g.type = row.type ∧ g.uuid = row.uuid)) := by
  decide

/-- Witness for `c4_in_change_primary`: the changed part's own closure row
has `in_pr ≠ 0` and its ref is in the change set. -/
theorem c4_in_change_primary_witness :
    TRow.mk RecordType.part (some "R1") 0 0 1 "r" "r" ∈ partsTree c4Gfv cParts c4Items cDeps 5 ∧
    ((TRow.mk RecordType.part (some "R1") 0 0 1 "r" "r").in_pr ≠ 0 ↔
      ∃ g ∈ c4Gfv, g.type = RecordType.part ∧ g.uuid = "r") :=
  ⟨by decide, c4_in_change_primary c4Gfv cParts c4Items cDeps 5 _ (by decide)⟩

/-- C5 (amended): every synthesized model row of `all_parts_tree` comes from
a package row of `parts_tree` and one of its models, at the package's depth
plus one with `type_order` 5 and the package row's own `in_pr` (not combined
with whether the model file changed); every synthesized symbol row likewise
comes from a unit row and a symbol of that unit, at depth plus one with
`type_order` 3 and the unit row's `in_pr`. -/
theorem c5_synthetic_rows (pt : List TRow) (models : List ModelRow)
    (symbols : List SymbolRow) :
    (∀ row ∈ modelTreeRows pt models, ∃ r ∈ pt, r.type = RecordType.package ∧
      ∃ m ∈ models, m.package_uuid = r.uuid ∧
        row = TRow.mk RecordType.model3d (some m.model_filename) (r.level + 1) 5
          r.in_pr "" r.root) ∧
    (∀ row ∈ symbolTreeRows pt symbols, ∃ r ∈ pt, r.type = RecordType.unit ∧
      ∃ s ∈ symbols, s.unit = r.uuid ∧
        row = TRow.mk RecordType.symbol (some s.name) (r.level + 1) 3
          r.in_pr s.uuid r.root) := by
  constructor
  · intro row h
    unfold modelTreeRows at h
    rw [List.mem_flatMap] at h
    obtain ⟨r, hr, hrow⟩ := h
    by_cases hp : r.type = RecordType.package
    · rw [if_pos hp] at hrow
      rw [List.mem_map] at hrow
      obtain ⟨m, hm, hmr⟩ := hrow
      have hm' := List.mem_filter.mp hm
      exact ⟨r, hr, hp, m, hm'.1, by simpa using hm'.2, hmr.symm⟩
    · rw [if_neg hp] at hrow
      exact absurd hrow (List.not_mem_nil row)
  · intro row h
    unfold symbolTreeRows at h
    rw [List.mem_flatMap] at h
    obtain ⟨r, hr, hrow⟩ := h
    by_cases hp : r.type = RecordType.unit
    · rw [if_pos hp] at hrow
      rw [List.mem_map] at hrow
      obtain ⟨s, hs, hsr⟩ := hrow
      have hs' := List.mem_filter.mp hs
      exact ⟨r, hr, hp, s, hs'.1, by simpa using hs'.2, hsr.symm⟩
    · rw [if_neg hp] at hrow
      exact absurd hrow (List.not_mem_nil row)

/-- The change set of the C5 counterexample: the part file and the model
file itself are changed (but not the package). -/
def c5Git : List GitFile := [GitFile.mk "r.json" 1, GitFile.mk "m.step" 1]

/-- The lookup rows of the C5 counterexample. -/
def c5Items : List ItemRow := [ItemRow.mk RecordType.part "r" "R1" "r.json"]

/-- The resolved change rows of the C5 counterexample: the part row and the
synthesized model_3d row of the changed model file. -/
def c5Gfv : List GitRow := gitFilesView c5Git c5Items cModels

/-- C5 counterexample: the model file `m.step` is itself in the change set,
yet the synthesized model row's annotation is 0 because its originating
package row is unchanged — the in-change annotation does not combine the
package row's flag with whether the model file changed; it only copies the
package row's flag. -/
theorem c5_counterexample :
    ¬ (∀ row ∈ modelTreeRows (partsTree c5Gfv cParts c5Items cDeps 5) cModels,
        (row.in_pr ≠ 0 ↔
          ((∃ r ∈ partsTree c5Gfv cParts c5Items cDeps 5,
              r.type = RecordType.package ∧ r.uuid = "k" ∧ r.in_pr ≠ 0) ∨
            ∃ g ∈ c5Gfv, g.type = RecordType.model3d ∧ g.filename = "m.step"))) := by
  decide

/-- Witness for `c5_synthetic_rows`: the concrete synthesized model row of
the C4 input originates from the package row of `parts_tree`. -/
theorem c5_synthetic_rows_witness :
    ∃ r ∈ partsTree c4Gfv cParts c4Items cDeps 5, r.type = RecordType.package ∧
      ∃ m ∈ cModels, m.package_uuid = r.uuid ∧
        TRow.mk RecordType.model3d (some "m.step") 2 5 1 "" "r" =
          TRow.mk RecordType.model3d (some m.model_filename) (r.level + 1) 5
            r.in_pr "" r.root :=
  (c5_synthetic_rows (partsTree c4Gfv cParts c4Items cDeps 5) cModels []).1
    (TRow.mk RecordType.model3d (some "m.step") 2 5 1 "" "r") (by decide)

/-- Modelled from the spec: the token list of the natural (human) string
ordering (`strcmp_natural` lives in horizon's util library, outside the
reviewed sources): maximal digit runs become numbers, any other character is
its own token. -/
def natKey (s : String) : List (Nat ⊕ Char) :=
  let step := fun (st : List (Nat ⊕ Char) × Option Nat) (c : Char) =>
    if c.isDigit then
      match st.2 with
      | some n => (st.1, some (n * 10 + (c.toNat - 48)))
      | none => (st.1, some (c.toNat - 48))
    else
      match st.2 with
      | some n => (st.1 ++ [Sum.inl n, Sum.inr c], none)
      | none => (st.1 ++ [Sum.inr c], none)
  match s.data.foldl step ([], none) with
  | (toks, some n) => toks ++ [Sum.inl n]
  | (toks, none) => toks

/-- Modelled from the spec: one natural-order token is below another when
both are numbers compared numerically, both are characters compared by code
point, or a number meets a character (digits sort below letters in ASCII). -/
def natTokLtB : (Nat ⊕ Char) → (Nat ⊕ Char) → Bool
  | Sum.inl a, Sum.inl b => decide (a < b)
  | Sum.inr a, Sum.inr b => decide (a < b)
  | Sum.inl _, Sum.inr _ => true
  | Sum.inr _, Sum.inl _ => false

/-- Modelled from the spec: lexicographic comparison of natural-order token
lists. -/
def natListLe : List (Nat ⊕ Char) → List (Nat ⊕ Char) → Bool
  | [], _ => true
  | _ :: _, [] => false
  | a :: as, b :: bs => natTokLtB a b || (a == b && natListLe as bs)

/-- Modelled from the spec: natural (human) string ordering — embedded
numbers compare numerically, so "R2" comes before "R10". -/
def natLe (a b : String) : Bool := natListLe (natKey a) (natKey b)

/-- Strictly-below on the `(root, type_order, level)` sort key. -/
def treeKeyLt (a b : TRow) : Prop :=
  strLt a.root b.root ∨ (a.root = b.root ∧ (a.type_order < b.type_order ∨
    (a.type_order = b.type_order ∧ a.level < b.level)))

instance : DecidableRel treeKeyLt := fun a b => by
  unfold treeKeyLt
  infer_instance

/-- Equality of the `(root, type_order, level)` sort key. -/
def sameKey (a b : TRow) : Prop :=
  a.root = b.root ∧ a.type_order = b.type_order ∧ a.level = b.level

instance : ∀ a b, Decidable (sameKey a b) := fun a b => by
  unfold sameKey
  infer_instance

/-- The ordering property C1 claims of the final display sequence: pairwise,
either strictly below on the `(root, type_order, level)` key, or an equal
key with record names in natural order. -/
def C1Ordered (l : List TRow) : Prop :=
  List.Pairwise (fun a b => treeKeyLt a b ∨
    (sameKey a b ∧ natLe (a.name.getD "") (b.name.getD "") = true)) l

/-- The change set, lookup, edges and symbols of the C1 counterexample: one
changed part using one unit that has two symbols named "R10" and "R2". -/
def c1Git : List GitFile := [GitFile.mk "r.json" 1]

def c1Items : List ItemRow := [ItemRow.mk RecordType.part "r" "R1" "r.json"]

def c1Deps : List DepRow := [DepRow.mk RecordType.part "r" RecordType.unit "u"]

def c1Symbols : List SymbolRow :=
  [SymbolRow.mk "s1" "R10" "u", SymbolRow.mk "s2" "R2" "u"]

def c1Gfv : List GitRow := gitFilesView c1Git c1Items []

/-- C1 counterexample: the two synthesized symbol rows share the sort key
`(root r, type_order 3, level 2)` but come out as "R10" before "R2" — the
view's ORDER BY has no name column, so ties are not in natural name order
("R2" < "R10" naturally). -/
theorem c1_counterexample :
    ¬ C1Ordered (allPartsTree c1Gfv cParts c1Items c1Deps [] c1Symbols 5) := by
  unfold C1Ordered
  decide

/-- C1 (amended): the final `all_parts_tree` sequence is sorted by
`(root, type_order, level)`; rows with equal keys keep the engine's
underlying row order — no record-name (natural) comparison takes part in
the ordering. -/
theorem c1_output_sorted (gfv : List GitRow) (parts : List PartRow)
    (allItems : List ItemRow) (deps : List DepRow) (models : List ModelRow)
    (symbols : List SymbolRow) (fuel : Nat) :
    List.Sorted treeKeyLe (allPartsTree gfv parts allItems deps models symbols fuel) :=
  List.sorted_insertionSort treeKeyLe _

/-- The property C7 claims of the two reports, per change entry: the path is
in the non-item list iff it has no row in the lookup table the items report
joins against (`all_items_view` UNION the synthesized model rows), and every
matching lookup row is emitted as an item row. -/
def C7Claim (git : List GitFile) (allItems : List ItemRow) (models : List ModelRow) : Prop :=
  ∀ g ∈ git,
    (g.path ∈ nonItems git allItems ↔
      ¬ ∃ i ∈ allItems ++ modelItems models, i.filename = g.path) ∧
    ∀ i ∈ allItems ++ modelItems models, i.filename = g.path →
      GitRow.mk i.type i.uuid i.name g.path g.status ∈ gitFilesView git allItems models

/-- The change set of the C7 counterexample: only a 3D model file changes. -/
def c7Git : List GitFile := [GitFile.mk "m.step" 1]

/-- C7 counterexample: a changed model file `m.step` has a matching row in
the lookup the items report uses (the synthesized model entry), so it is
emitted as an item — yet it also appears in the non-item list, because that
query joins `all_items_view` alone.  The "non-item iff unmatched" claim
fails. -/
theorem c7_counterexample : ¬ C7Claim c7Git [] cModels := by
  unfold C7Claim
  decide

/-- C7 (amended): a changed path is reported as a non-item iff it has no
matching row in `all_items_view` proper (the models-derived lookup rows do
not count), and every matching row of the items lookup (`all_items_view`
UNION the synthesized model rows) is emitted as an item row; a path matching
only the models table therefore appears in both reports. -/
theorem c7_non_items (git : List GitFile) (allItems : List ItemRow)
    (models : List ModelRow) :
    ∀ g ∈ git,
      (g.path ∈ nonItems git allItems ↔ ¬ ∃ i ∈ allItems, i.filename = g.path) ∧
      ∀ i ∈ allItems ++ modelItems models, i.filename = g.path →
        GitRow.mk i.type i.uuid i.name g.path g.status ∈ gitFilesView git allItems models := by
  intro g hg
  constructor
  · unfold nonItems
    rw [List.mem_map]
    constructor
    · rintro ⟨g', hg', hp⟩
      have hf := List.mem_filter.mp hg'
      rintro ⟨i, hi, hif⟩
      have hall := List.all_eq_true.mp hf.2 i hi
      rw [hp] at hall
      have hne : i.filename ≠ g.path := by simpa using hall
      exact hne hif
    · intro hno
      refine ⟨g, List.mem_filter.mpr ⟨hg, ?_⟩, rfl⟩
      rw [List.all_eq_true]
      intro i hi
      simp only [decide_eq_true_eq]
      intro hif
      exact hno ⟨i, hi, hif⟩
  · intro i hi hif
    unfold gitFilesView
    rw [List.mem_flatMap]
    refine ⟨g, hg, ?_⟩
    rw [List.mem_map]
    exact ⟨i, List.mem_filter.mpr ⟨hi, by simpa using hif⟩, rfl⟩

/-- Witness for `c7_non_items`: the changed part file of the C1 input is
matched by the lookup, hence not a non-item, and is emitted as an item. -/
theorem c7_non_items_witness :
    ((GitFile.mk "r.json" 1).path ∈ nonItems c1Git c1Items ↔
      ¬ ∃ i ∈ c1Items, i.filename = (GitFile.mk "r.json" 1).path) ∧
    ∀ i ∈ c1Items ++ modelItems [], i.filename = (GitFile.mk "r.json" 1).path →
      GitRow.mk i.type i.uuid i.name (GitFile.mk "r.json" 1).path
          (GitFile.mk "r.json" 1).status ∈ gitFilesView c1Git c1Items [] :=
  c7_non_items c1Git c1Items [] (GitFile.mk "r.json" 1) (by decide)

/-- The error raised by derivation-chain resolution on a repeated ref. -/
inductive ChainError
  | cyclicDerivation (ref : String)
deriving DecidableEq, Repr

/-- Modelled from the spec: one step of the base chain (§4.3 Inheritance
Resolver; `Part::base` resolution lives in the pool library, outside the
reviewed sources).  `none` when the part is absent or its base is the nil
UUID. -/
def baseOf (parts : List PartRow) (u : String) : Option String :=
  match parts.find? (fun p => p.uuid = u) with
  | none => none
  | some p => if p.base = nilUUID then none else some p.base

/-- Iteration of the base chain `k` times. -/
def baseIter (parts : List PartRow) : Nat → String → Option String
  | 0, u => some u
  | n + 1, u => (baseOf parts u).bind (baseIter parts n)

/-- Modelled from the spec: derivation-chain construction with a visited
set — if a ref repeats, fail with a `CyclicDerivation` error naming the
offending ref (§4.3).  The fuel bounds the walk; running out of fuel is
only possible along an unbounded base chain, which in a finite part table
means a repeat, so that case reports the same error. -/
def buildChain (parts : List PartRow) : Nat → List String → String → Except ChainError (List String)
  | 0, _, u => Except.error (ChainError.cyclicDerivation u)
  | fuel + 1, visited, u =>
    if u ∈ visited then Except.error (ChainError.cyclicDerivation u)
    else
      match baseOf parts u with
      | none => Except.ok (visited ++ [u])
      | some b => buildChain parts fuel (visited ++ [u]) b

/-- Modelled from the spec: resolve a part's full derivation chain. -/
def resolveChain (parts : List PartRow) (u : String) : Except ChainError (List String) :=
  buildChain parts (parts.length + 1) [] u

/-- Modelled from the spec: the per-part report sections — each part's
section is rendered from its own chain resolution, independent of any other
part's outcome. -/
def partSections (parts : List PartRow) (uuids : List String) :
    List (String × Except ChainError (List String)) :=
  uuids.map (fun u => (u, resolveChain parts u))

lemma baseIter_add (parts : List PartRow) :
    ∀ (m n : Nat) (u : String),
      baseIter parts (m + n) u = (baseIter parts m u).bind (baseIter parts n) := by
  intro m
  induction m with
  | zero =>
    intro n u
    simp [baseIter]
  | succ m ih =>
    intro n u
    have h1 : m + 1 + n = (m + n) + 1 := by omega
    rw [h1]
    show (baseOf parts u).bind (baseIter parts (m + n)) =
      ((baseOf parts u).bind (baseIter parts m)).bind (baseIter parts n)
    cases hb : baseOf parts u with
    | none => rfl
    | some b =>
      show baseIter parts (m + n) b = (baseIter parts m b).bind (baseIter parts n)
      exact ih n b

lemma cycle_head {parts : List PartRow} {k : Nat} {v : String}
    (hk : 1 ≤ k) (hc : baseIter parts k v = some v) :
    ∃ b, baseOf parts v = some b ∧ baseIter parts (k - 1) b = some v := by
  obtain ⟨j, rfl⟩ := Nat.exists_eq_add_of_le hk
  have hc' : (baseOf parts v).bind (baseIter parts j) = some v := by
    have h1 : 1 + j = j + 1 := by omega
    rw [h1] at hc
    exact hc
  cases hb : baseOf parts v with
  | none => rw [hb] at hc'; exact absurd hc' (by simp)
  | some b =>
    rw [hb] at hc'
    refine ⟨b, rfl, ?_⟩
    have h2 : 1 + j - 1 = j := by omega
    rw [h2]
    simpa using hc'

lemma cycle_rotate {parts : List PartRow} {k : Nat} {v b : String}
    (hk : 1 ≤ k) (hc : baseIter parts k v = some v)
    (hb : baseOf parts v = some b) : baseIter parts k b = some b := by
  obtain ⟨b', hb', hrest⟩ := cycle_head hk hc
  rw [hb] at hb'
  obtain rfl : b = b' := Option.some.inj hb'
  have h1 : k = (k - 1) + 1 := by omega
  rw [h1]
  rw [baseIter_add parts (k - 1) 1 b]
  rw [hrest]
  show baseIter parts 1 v = some b
  show (baseOf parts v).bind (baseIter parts 0) = some b
  rw [hb]
  rfl

lemma buildChain_cycle {parts : List PartRow} {k : Nat} (hk : 1 ≤ k) :
    ∀ (fuel : Nat) (visited : List String) (v : String),
      baseIter parts k v = some v →
      ∃ r, buildChain parts fuel visited v =
          Except.error (ChainError.cyclicDerivation r) ∧
        ∃ j, baseIter parts j v = some r := by
  intro fuel
  induction fuel with
  | zero =>
    intro visited v hc
    exact ⟨v, rfl, 0, rfl⟩
  | succ f ih =>
    intro visited v hc
    show ∃ r, (if v ∈ visited then Except.error (ChainError.cyclicDerivation v)
        else match baseOf parts v with
          | none => Except.ok (visited ++ [v])
          | some b => buildChain parts f (visited ++ [v]) b) =
        Except.error (ChainError.cyclicDerivation r) ∧ ∃ j, baseIter parts j v = some r
    by_cases hv : v ∈ visited
    · rw [if_pos hv]
      exact ⟨v, rfl, 0, rfl⟩
    · rw [if_neg hv]
      obtain ⟨b, hb, _⟩ := cycle_head hk hc
      rw [hb]
      obtain ⟨r, herr, j, hjr⟩ := ih (visited ++ [v]) b (cycle_rotate hk hc hb)
      refine ⟨r, herr, 1 + j, ?_⟩
      rw [baseIter_add parts 1 j v]
      have h1 : baseIter parts 1 v = some b := by
        show (baseOf parts v).bind (baseIter parts 0) = some b
        rw [hb]
        rfl
      rw [h1]
      exact hjr

/-- C6: a part whose base chain returns to itself after `k ≥ 1` steps makes
derivation-chain resolution fail with a `CyclicDerivation` error naming a
ref on that chain (the resolver is a total function, so it cannot loop),
while the run still renders a section for every part, each from its own
independent resolution. -/
theorem c6_cyclic_derivation (parts : List PartRow) (p : String) (k : Nat)
    (hk : 1 ≤ k) (hc : baseIter parts k p = some p) :
    (∃ r, resolveChain parts p = Except.error (ChainError.cyclicDerivation r) ∧
      ∃ j, baseIter parts j p = some r) ∧
    ∀ uuids : List String, (partSections parts uuids).map Prod.fst = uuids ∧
      ∀ q ∈ uuids, (q, resolveChain parts q) ∈ partSections parts uuids := by
  constructor
  · exact buildChain_cycle hk (parts.length + 1) [] p hc
  · intro uuids
    constructor
    · unfold partSections
      rw [List.map_map]
      exact List.map_id uuids
    · intro q hq
      unfold partSections
      rw [List.mem_map]
      exact ⟨q, hq, rfl⟩

/-- Witness for `c6_cyclic_derivation`: a part that is its own base. -/
theorem c6_cyclic_derivation_witness :
    (∃ r, resolveChain [PartRow.mk "a" "a"] "a" =
        Except.error (ChainError.cyclicDerivation r) ∧
      ∃ j, baseIter [PartRow.mk "a" "a"] j "a" = some r) ∧
    ∀ uuids : List String,
      (partSections [PartRow.mk "a" "a"] uuids).map Prod.fst = uuids ∧
      ∀ q ∈ uuids, (q, resolveChain [PartRow.mk "a" "a"] q) ∈
        partSections [PartRow.mk "a" "a"] uuids :=
  c6_cyclic_derivation [PartRow.mk "a" "a"] "a" 1 (by decide) (by decide)

/-- Modelled from the spec: the per-call placement transform (horizon's
`Placement` lives in the util library, outside the reviewed sources) —
an optional X mirror, a rotation by a multiple of 90 degrees, then a
translation (§4.4). -/
structure Placement where
  shift : Int × Int
  angle : Fin 4
  mirror : Bool
deriving DecidableEq, Repr

/-- The identity placement. -/
def Placement.id : Placement := Placement.mk (0, 0) 0 false

/-- Modelled from the spec: apply a placement — mirror, rotate by the 90
degree multiple, translate. -/
def applyPlacement (pl : Placement) (p : Int × Int) : Int × Int :=
  let m := if pl.mirror then (-p.1, p.2) else p
  let r := match pl.angle with
    | 0 => m
    | 1 => (-m.2, m.1)
    | 2 => (-m.1, -m.2)
    | 3 => (m.2, -m.1)
  (r.1 + pl.shift.1, r.2 + pl.shift.2)

/-- The fixed canvas-lifetime scale set once in the constructor:
`cr->scale(2e-5, -2e-5)`, i.e. 1/50000 with the Y axis flipped. -/
def canvasScale : ℚ := 1 / 50000

/-- The user-space stroke width `img_line` passes to `set_line_width`:
`0.1e6`. -/
def lineWidthUser : ℚ := 100000

/-- A user-space point mapped to device space by the canvas transform
(uniform scale, Y flip). -/
def devicePoint (p : Int × Int) : ℚ × ℚ :=
  ((p.1 : ℚ) * canvasScale, (p.2 : ℚ) * (-canvasScale))

/-- One recorded stroked line segment, in device space: endpoints and the
stroke width (cairo records the path with the CTM applied, so the recording
surface holds device coordinates). -/
structure Segment where
  x0 : ℚ
  y0 : ℚ
  x1 : ℚ
  y1 : ℚ
  width : ℚ
deriving DecidableEq, Repr

/-- The recording canvas state: the current per-call placement transform
and the ordered, append-only list of recorded primitives. -/
structure CanvasState where
  transform : Placement
  recording : List Segment
deriving DecidableEq, Repr

/-- A freshly constructed `CanvasCairo2`: identity placement, empty
recording. -/
def initCanvas : CanvasState := CanvasState.mk Placement.id []

/-- The `CanvasCairo2::img_line` operation: transform the endpoints by the placement when
`tr` is set, emit the segment through the fixed scale/flip, stroke with the
hardcoded `0.1e6` line width (the `width` and `layer` arguments are unused
by the source). -/
def img_line (st : CanvasState) (p0 p1 : Int × Int) (width : Nat) (layer : Int)
    (tr : Bool) : CanvasState :=
  let q0 := if tr then applyPlacement st.transform p0 else p0
  let q1 := if tr then applyPlacement st.transform p1 else p1
  CanvasState.mk st.transform (st.recording ++
    [Segment.mk (devicePoint q0).1 (devicePoint q0).2 (devicePoint q1).1
      (devicePoint q1).2 (lineWidthUser * canvasScale)])

/-- Low X edge of a stroked segment's ink box (round caps extend half the
stroke width beyond each endpoint). -/
def segMinX (s : Segment) : ℚ := min s.x0 s.x1 - s.width / 2

def segMinY (s : Segment) : ℚ := min s.y0 s.y1 - s.width / 2

def segMaxX (s : Segment) : ℚ := max s.x0 s.x1 + s.width / 2

def segMaxY (s : Segment) : ℚ := max s.y0 s.y1 + s.width / 2

/-- The `cairo_recording_surface_ink_extents` measurement: `(x0, y0, width, height)` of the
tight box around everything drawn; all zero for an empty recording. -/
def inkExtents : List Segment → ℚ × ℚ × ℚ × ℚ
  | [] => (0, 0, 0, 0)
  | s :: rest =>
    let x0 := (rest.map segMinX).foldl min (segMinX s)
    let y0 := (rest.map segMinY).foldl min (segMinY s)
    let x1 := (rest.map segMaxX).foldl max (segMaxX s)
    let y1 := (rest.map segMaxY).foldl max (segMaxY s)
    (x0, y0, x1 - x0, y1 - y0)

/-- A rasterized image: pixel dimensions, the origin offset used as the
paint source offset, and the composited recording. -/
structure Image where
  width : Nat
  height : Nat
  offsetX : ℚ
  offsetY : ℚ
  content : List Segment
deriving DecidableEq, Repr

/-- The `Cairo::ImageSurface::create(FORMAT_ARGB32, w, h)` call with the C++
double-to-int conversion of the extent sizes: fails on negative dimensions,
otherwise a valid (possibly zero-sized) surface. -/
def imageSurfaceCreate (w h : Int) (ox oy : ℚ) (content : List Segment) : Option Image :=
  if w < 0 ∨ h < 0 then none else some (Image.mk w.toNat h.toNat ox oy content)

/-- The `CanvasCairo2::get_image_surface` rasterization: measure the ink extents of the
recording, allocate a surface of exactly that size and paint the recording
at offset `(-x0, -y0)`. -/
def get_image_surface (st : CanvasState) : Option Image :=
  match inkExtents st.recording with
  | (x0, y0, w, h) => imageSurfaceCreate ⌊w⌋ ⌊h⌋ (-x0) (-y0) st.recording

/-- C8: rasterizing an empty recording does not fail — the ink extents are
all zero and the result is a valid zero-sized image, with no division or
measurement error on the way. -/
theorem c8_empty_recording :
    inkExtents [] = (0, 0, 0, 0) ∧
    get_image_surface initCanvas = some (Image.mk 0 0 0 0 []) := by
  constructor
  · rfl
  · rfl

/-- The drawing operations replayed against a canvas: set the placement
(`Canvas::load` with a placement argument) or draw a line segment. -/
inductive DrawOp
  | setTransform (pl : Placement)
  | line (p0 p1 : Int × Int) (width : Nat) (layer : Int) (tr : Bool)
deriving DecidableEq, Repr

/-- Apply one drawing operation to the canvas state. -/
def applyOp (st : CanvasState) : DrawOp → CanvasState
  | DrawOp.setTransform pl => CanvasState.mk pl st.recording
  | DrawOp.line p0 p1 w l tr => img_line st p0 p1 w l tr

/-- Run a sequence of drawing operations on a fresh canvas. -/
def runOps (ops : List DrawOp) : CanvasState := ops.foldl applyOp initCanvas

/-- C9: recording an identical operation sequence on two fresh canvases
yields identical recordings and byte-identical raster output — the
canvas-and-rasterizer pipeline is a deterministic function of the primitive
sequence and transforms. -/
theorem c9_deterministic (ops : List DrawOp) (c1 c2 : CanvasState)
    (h1 : c1 = runOps ops) (h2 : c2 = runOps ops) :
    c1.recording = c2.recording ∧ get_image_surface c1 = get_image_surface c2 := by
  subst h1
  subst h2
  exact ⟨rfl, rfl⟩

/-- Witness for `c9_deterministic` at a concrete operation sequence. -/
theorem c9_deterministic_witness :
    (runOps [DrawOp.line (0, 0) (10, 10) 5 0 false]).recording =
      (runOps [DrawOp.line (0, 0) (10, 10) 5 0 false]).recording ∧
    get_image_surface (runOps [DrawOp.line (0, 0) (10, 10) 5 0 false]) =
      get_image_surface (runOps [DrawOp.line (0, 0) (10, 10) 5 0 false]) :=
  c9_deterministic [DrawOp.line (0, 0) (10, 10) 5 0 false] _ _ rfl rfl

/-- C10 counterexample: a line drawn with a supplied width of 50000 user
units (device width 1 under the canvas scale) is recorded with stroke width
2 — the hardcoded `0.1e6` — not the width supplied in the call. -/
theorem c10_counterexample :
    (img_line initCanvas (0, 0) (10, 10) 50000 0 false).recording.map Segment.width ≠
      [(50000 : ℚ) * canvasScale] := by
  simp only [img_line, initCanvas, List.nil_append, List.map_cons, List.map_nil,
    ne_eq, List.cons.injEq, and_true]
  norm_num [lineWidthUser, canvasScale]

/-- C10 (amended): every line-segment operation appends exactly one segment
whose endpoints are the call's points, transformed by the per-call placement
when requested and by the fixed uniform scale with Y flip, and whose stroke
width is the fixed `0.1e6` user units — the supplied width (and layer) have
no effect on the recording. -/
theorem c10_line_recording (st : CanvasState) (p0 p1 : Int × Int)
    (w w' : Nat) (layer layer' : Int) (tr : Bool) :
    img_line st p0 p1 w layer tr = img_line st p0 p1 w' layer' tr ∧
    (img_line st p0 p1 w layer tr).transform = st.transform ∧
    (img_line st p0 p1 w layer tr).recording = st.recording ++
      [Segment.mk
        (devicePoint (if tr then applyPlacement st.transform p0 else p0)).1
        (devicePoint (if tr then applyPlacement st.transform p0 else p0)).2
        (devicePoint (if tr then applyPlacement st.transform p1 else p1)).1
        (devicePoint (if tr then applyPlacement st.transform p1 else p1)).2
        (lineWidthUser * canvasScale)] :=
  ⟨rfl, rfl, rfl⟩

end PrReview
